import Mathlib

/-!
Verification of the Spanish inverse-text-normalization money classifier
(`nemo_text_processing/inverse_text_normalization/es/taggers/money.py`) and of
the Japanese verbalization composer
(`nemo_text_processing/text_normalization/ja/verbalizers/verbalize.py`).

The pynini weighted finite-state transducers are embedded shallowly: a small
deep datatype `FST` captures exactly the combinators the source uses (finite
lexicon transducers, concatenation, union, optional closure, whitespace
deletion, additive weights), and `run` enumerates all partial accepting paths
of such a transducer on a concrete input, as (output, remaining input, weight)
triples.  Classification keeps the paths that consume the whole input, as the
spec's `classify` interface describes.
-/

namespace Nemo

/-- Modelled from the spec: the whitespace class (`NEMO_WHITE_SPACE` of the
`graph_utils` collaborator module, which is not part of the shown source). -/
def isWs (c : Char) : Bool :=
  c == ' ' || c == '\t' || c == '\n' || c == '\u00A0'

/-- Boolean test that the first list is a prefix of the second. -/
def listPre : List Char → List Char → Bool
  | [], _ => true
  | _ :: _, [] => false
  | a :: as, b :: bs => a == b && listPre as bs

/-- All ways of deleting zero or more leading whitespace characters:
the list of possible remaining inputs. -/
def wsDrops : List Char → List (List Char)
  | [] => [[]]
  | c :: cs => (c :: cs) :: (if isWs c then wsDrops cs else [])

/-- A partial accepting path: emitted output, remaining input, path weight. -/
abbrev PathRes := List Char × List Char × Int

/-- Deep embedding of the pynini combinators used by the money grammar.
`lex` is a finite transducer given by (input surface, output) pairs and covers
`pynini.accep`, `pynini.cross`, `pynutil.insert`, `pynutil.delete` and
`pynini.string_file`; `seq` is concatenation (`+`); `union` is `|`;
`opt` is `pynini.closure(·, 0, 1)`; `delSpace` is `delete_space`
(delete zero or more whitespace); `delExtraSpace` is `delete_extra_space`
(one or more whitespace crossed to a single space); `wt` is
`pynutil.add_weight`.  Weights are recorded as integers in tenths of a pynini
tropical-weight unit, so the source's bias of `-0.7` appears as `-7`. -/
inductive FST where
  | lex (entries : List (String × String))
  | seq (a b : FST)
  | union (a b : FST)
  | opt (a : FST)
  | delSpace
  | delExtraSpace
  | wt (w : Int) (a : FST)

/-- Path enumeration: all (output, rest, weight) triples of partial accepting
paths of the transducer on the given input. -/
def run : FST → List Char → List PathRes
  | .lex es, input =>
      es.filterMap (fun e =>
        if listPre e.1.data input then
          some (e.2.data, input.drop e.1.data.length, (0 : Int))
        else none)
  | .seq a b, input =>
      (run a input).flatMap (fun r =>
        (run b r.2.1).map (fun r2 => (r.1 ++ r2.1, r2.2.1, r.2.2 + r2.2.2)))
  | .union a b, input => run a input ++ run b input
  | .opt a, input => ([], input, (0 : Int)) :: run a input
  | .delSpace, input => (wsDrops input).map (fun rest => ([], rest, (0 : Int)))
  | .delExtraSpace, input =>
      match input with
      | [] => []
      | c :: cs =>
          if isWs c then (wsDrops cs).map (fun rest => ([' '], rest, (0 : Int)))
          else []
  | .wt w a, input => (run a input).map (fun r => (r.1, r.2.1, w + r.2.2))

/-- `pynutil.insert`: consume nothing, emit a literal. -/
def insert (s : String) : FST := .lex [("", s)]

/-- `pynutil.delete` of a literal: consume the literal, emit nothing. -/
def del1 (s : String) : FST := .lex [(s, "")]

/-- `pynutil.delete` of a union of surface forms. -/
def delWords (ws : List String) : FST := .lex (ws.map (fun s => (s, "")))

/-- `pynini.accep`: identity on a literal. -/
def accep (s : String) : FST := .lex [(s, s)]

/-- `insert_space` from `graph_utils`. -/
def insert_space : FST := insert " "

/-- Right-nested concatenation of a list of transducers (pynini `+`). -/
def seqL : List FST → FST
  | [] => accep ""
  | [g] => g
  | g :: gs => .seq g (seqL gs)

/-- The two case modes of the classifier (`INPUT_LOWER_CASED` / `INPUT_CASED`
from `graph_utils`). -/
inductive InputCase where
  | lower_cased
  | cased
deriving DecidableEq, Repr

/-- Capitalize the first character of a string (as the `TO_LOWER`-based
capitalization transform of `graph_utils` does on the input side). -/
def capFirst (s : String) : String :=
  match s.data with
  | [] => ""
  | c :: cs => String.mk (Char.toUpper c :: cs)

/-- Modelled from the spec: `capitalized_input_graph` of the `graph_utils`
collaborator — union of a lexicon with the variant whose first surface
character is capitalized. -/
def capitalized_input_graph (es : List (String × String)) : List (String × String) :=
  es ++ es.map (fun e => (capFirst e.1, e.2))

/-- Modelled from the spec: `convert_space` of `graph_utils` — rewrite spaces
on the output side to non-breaking spaces. -/
def convert_space (es : List (String × String)) : List (String × String) :=
  es.map (fun e =>
    (e.1, String.mk (e.2.data.map (fun c => if c == ' ' then '\u00A0' else c))))

/-- Modelled from the spec: lexicon table `data/money/currency_major_singular.tsv`
(surface form of a singular major currency unit, normalized symbol), already
inverted to the classification direction. -/
def currency_major_singular : List (String × String) :=
  [("dólar", "$"), ("euro", "€")]

/-- Modelled from the spec: lexicon table `data/money/currency_major_plural.tsv`,
inverted to the classification direction. -/
def currency_major_plural : List (String × String) :=
  [("dólares", "$"), ("euros", "€")]

/-- Modelled from the spec: lexicon table `data/money/currency_minor_singular.tsv`,
inverted to the classification direction. -/
def currency_minor_singular : List (String × String) :=
  [("céntimo", "¢")]

/-- Modelled from the spec: lexicon table `data/money/currency_minor_plural.tsv`,
inverted to the classification direction. -/
def currency_minor_plural : List (String × String) :=
  [("céntimos", "¢")]

/-- Modelled from the spec: the extra capitalized singular major-unit lexicon
`data/money/currency_major_singular_capitalized.tsv` used in cased mode. -/
def currency_major_singular_capitalized : List (String × String) :=
  [("Dólar", "$"), ("Euro", "€")]

/-- Modelled from the spec: the extra capitalized plural major-unit lexicon
`data/money/currency_major_plural_capitalized.tsv` used in cased mode. -/
def currency_major_plural_capitalized : List (String × String) :=
  [("Dólares", "$"), ("Euros", "€")]

/-- The singular major-unit lexicon after the case handling of
`MoneyFst.__init__`: in cased mode the capitalization transform is applied and
the capitalized table is unioned in. -/
def unit_singular : InputCase → List (String × String)
  | .lower_cased => currency_major_singular
  | .cased => capitalized_input_graph currency_major_singular ++
      currency_major_singular_capitalized

/-- The plural major-unit lexicon after the case handling of
`MoneyFst.__init__`. -/
def unit_plural : InputCase → List (String × String)
  | .lower_cased => currency_major_plural
  | .cased => capitalized_input_graph currency_major_plural ++
      currency_major_plural_capitalized

/-- The singular minor-unit lexicon after the case handling of
`MoneyFst.__init__` (only the capitalization transform, no extra table). -/
def unit_minor_singular : InputCase → List (String × String)
  | .lower_cased => currency_minor_singular
  | .cased => capitalized_input_graph currency_minor_singular

/-- The plural minor-unit lexicon after the case handling of
`MoneyFst.__init__`. -/
def unit_minor_plural : InputCase → List (String × String)
  | .lower_cased => currency_minor_plural
  | .cased => capitalized_input_graph currency_minor_plural

/-- Modelled from the spec: the black-box cardinal sub-grammar
(`cardinal.graph_no_exception`), a numeral-text to digit-string mapping,
restricted to a representative finite fragment sufficient for the claims. -/
def cardinal_entries : List (String × String) :=
  [("un", "1"), ("una", "1"), ("uno", "1"), ("dos", "2"), ("cinco", "5"),
   ("diez", "10"), ("doce", "12"), ("veintiuna", "21"), ("sesenta y tres", "63"),
   ("setenta", "70"), ("setenta y cinco", "75"), ("cien", "100"),
   ("un millón", "1000000")]

/-- Modelled from the spec: the cardinal sub-grammar in the requested case
mode (in cased mode it also accepts the capitalized-first variants). -/
def cardinal_graph : InputCase → List (String × String)
  | .lower_cased => cardinal_entries
  | .cased => cardinal_entries ++ cardinal_entries.map (fun e => (capFirst e.1, e.2))

/-- Modelled from the spec: the black-box decimal sub-grammar
(`decimal.final_graph_wo_negative`), which already emits tagged fields;
a representative finite fragment. -/
def decimal_entries : List (String × String) :=
  [("doce coma cinco",
    "integer_part: \"12\" morphosyntactic_features: \",\" fractional_part: \"5\"")]

/-- Modelled from the spec: the decimal sub-grammar in the requested case mode. -/
def graph_decimal_final : InputCase → List (String × String)
  | .lower_cased => decimal_entries
  | .cased => decimal_entries ++ decimal_entries.map (fun e => (capFirst e.1, e.2))

/-- `one_graph` of `MoneyFst.__init__`: the surface forms of quantity one
("un"/"una", plus the capitalized variants in cased mode). -/
def one_graph : InputCase → List String
  | .lower_cased => ["un", "una"]
  | .cased => ["un", "una", "Un", "Una"]

/-- `and_graph` of `MoneyFst.__init__`: the connector words deleted before
standalone cents ("con"/"y", plus capitalized variants in cased mode). -/
def and_graph : InputCase → List String
  | .lower_cased => ["con", "y"]
  | .cased => ["con", "y", "Con", "Y"]

/-- `add_leading_zero_to_double_digit` as a function on digit strings,
mirroring the source's `(NEMO_DIGIT + NEMO_DIGIT) | (pynutil.insert("0") +
NEMO_DIGIT)`: a two-digit string passes through, a one-digit string gets a
leading zero, anything else is rejected. -/
def add_leading_zero_to_double_digit (s : String) : Option String :=
  match s.data with
  | [a, b] => if a.isDigit && b.isDigit then some s else none
  | [a] => if a.isDigit then some (String.mk ['0', a]) else none
  | _ => none

/-- Composition (`@`) of a finite lexicon with
`add_leading_zero_to_double_digit`. -/
def composePad (es : List (String × String)) : List (String × String) :=
  es.filterMap (fun e =>
    (add_leading_zero_to_double_digit e.2).map (fun v => (e.1, v)))

/-- `(NEMO_SIGMA - one_graph) @ cardinal_graph`: the cardinal sub-grammar with
the exact quantity-one surface strings removed from its input language. -/
def cardinal_no_one (ic : InputCase) : List (String × String) :=
  (cardinal_graph ic).filter (fun e => !(one_graph ic).contains e.1)

/-- `currency: "..."` emission around a unit lexicon
(`graph_unit_*` of `MoneyFst.__init__`, with `convert_space`). -/
def graph_unit (es : List (String × String)) : FST :=
  seqL [insert "currency: \"", .lex (convert_space es), insert "\""]

/-- `cents_standalone` of `MoneyFst.__init__`: comma decimal marker plus a
two-digit `fractional_part`, the general (weighted, zero-padded) cardinal
reading unioned with the literal "01" quantity-one reading. -/
def cents_standalone (ic : InputCase) : FST :=
  seqL [insert "morphosyntactic_features: \",\"", insert_space,
    insert "fractional_part: \"",
    .union
      (.seq (.wt (-7) (.lex (composePad (cardinal_no_one ic)))) .delSpace)
      (.seq (.lex ((one_graph ic).map (fun s => (s, "01")))) .delSpace),
    insert "\""]

/-- `optional_cents_standalone` of `MoneyFst.__init__`: optional connector,
then `cents_standalone`, then deletion of a minor-unit word; the whole clause
occurs zero or one times. -/
def optional_cents_standalone (ic : InputCase) : FST :=
  .opt (seqL [.delSpace,
    .opt (.seq (delWords (and_graph ic)) .delSpace),
    insert_space,
    cents_standalone ic,
    delWords ((unit_minor_singular ic).map (fun e => e.1) ++
      (unit_minor_plural ic).map (fun e => e.1))])

/-- `optional_cents_suffix` of `MoneyFst.__init__`: after the integer and
major unit, an optional hard-coded "con"/"Con" connector and a weighted
zero-padded cardinal as `fractional_part`, with no minor-unit word; the whole
clause occurs zero or one times. -/
def optional_cents_suffix (ic : InputCase) : FST :=
  .opt (seqL [.delExtraSpace,
    insert "morphosyntactic_features: \",\"",
    insert_space,
    insert "fractional_part: \"",
    .opt (.seq (delWords ["con", "Con"]) .delSpace),
    .wt (-7) (.lex (composePad (cardinal_graph ic))),
    insert "\""])

/-- The plural branch of `graph_integer`: a non-one cardinal, a mandatory
separator, the plural major unit, then either optional cents clause. -/
def graph_integer_plural (ic : InputCase) : FST :=
  seqL [insert "integer_part: \"", .lex (cardinal_no_one ic), insert "\"",
    .delExtraSpace, graph_unit (unit_plural ic),
    .union (optional_cents_standalone ic) (optional_cents_suffix ic)]

/-- The singular branch of `graph_integer`: the quantity-one forms crossed to
"1", a mandatory separator, the singular major unit, then either optional
cents clause. -/
def graph_integer_singular (ic : InputCase) : FST :=
  seqL [insert "integer_part: \"",
    .lex ((one_graph ic).map (fun s => (s, "1"))), insert "\"",
    .delExtraSpace, graph_unit (unit_singular ic),
    .union (optional_cents_standalone ic) (optional_cents_suffix ic)]

/-- `graph_integer` of `MoneyFst.__init__`: union of the plural and singular
branches. -/
def graph_integer (ic : InputCase) : FST :=
  .union (graph_integer_plural ic) (graph_integer_singular ic)

/-- `cents_only_graph` of `MoneyFst.__init__`: synthesized
`integer_part: "0"`, the standalone-cents clause, an accepted space, and the
currency taken from a minor-unit lexicon. -/
def cents_only_graph (ic : InputCase) : FST :=
  seqL [insert "integer_part: \"0\" ", cents_standalone ic, accep " ",
    .union (graph_unit (unit_minor_singular ic))
      (graph_unit (unit_minor_plural ic))]

/-- `graph_decimal` of `MoneyFst.__init__`: decimal reading plus plural major
unit, the cents-only path, and the variant deleting a " de" connector. -/
def graph_decimal (ic : InputCase) : FST :=
  .union
    (.union
      (seqL [.lex (graph_decimal_final ic), .delExtraSpace,
        graph_unit (unit_plural ic)])
      (cents_only_graph ic))
    (seqL [.lex (graph_decimal_final ic), del1 " de", .delExtraSpace,
      graph_unit (unit_plural ic)])

/-- `final_graph` of `MoneyFst.__init__` wrapped by `add_tokens`
(modelled from the spec: the generic `money \x7b ... \x7d` token framing). -/
def final_graph (ic : InputCase) : FST :=
  seqL [insert "money \x7b ", .union (graph_integer ic) (graph_decimal ic),
    insert " \x7d"]

/-- Modelled from the spec: `classify` — enumerate the accepting paths that
consume the entire input, as (annotation, weight) pairs; the empty list is the
NoMatch outcome. -/
def money_classify (ic : InputCase) (s : String) : List (String × Int) :=
  (run (final_graph ic) s.data).filterMap
    (fun r => if r.2.1.isEmpty then some (String.mk r.1, r.2.2) else none)

/-- Number of positions at which `pat` occurs as a substring of `s`. -/
def countOccur (pat s : String) : Nat :=
  ((List.range (s.data.length + 1)).filter
    (fun i => listPre pat.data (s.data.drop i))).length

/-- Modelled from the spec: the Japanese cardinal verbalizer
(`jp/verbalizers/cardinal.py`, a black-box collaborator), as an opaque finite
transducer from annotations to text. -/
def jp_cardinal_verbalizer : FST :=
  .lex [("cardinal \x7b integer: \"123\" \x7d", "123")]

/-- Modelled from the spec: the Japanese whitelist verbalizer
(`jp/verbalizers/whitelist.py`, a black-box collaborator), carrying its own
weight bias. -/
def jp_whitelist_verbalizer : FST :=
  .wt (-5) (.lex [("whitelist \x7b name: \"ATM\" \x7d", "ATM")])

/-- `VerbalizeFst.__init__` of `ja/verbalizers/verbalize.py`: the union of the
per-class verbalizers it instantiates (cardinal and whitelist). -/
def ja_verbalize_fst : FST :=
  .union jp_cardinal_verbalizer jp_whitelist_verbalizer

/-! ### Structural lemmas about `run` -/

theorem listPre_iff (p l : List Char) : listPre p l = true ↔ ∃ t, l = p ++ t := by
  induction p generalizing l with
  | nil => simp [listPre]
  | cons a as ih =>
    cases l with
    | nil => simp [listPre]
    | cons b bs =>
      simp only [listPre, Bool.and_eq_true, beq_iff_eq, ih, List.cons_append,
        List.cons.injEq]
      constructor
      · rintro ⟨rfl, t, rfl⟩
        exact ⟨t, rfl, rfl⟩
      · rintro ⟨t, rfl, rfl⟩
        exact ⟨rfl, t, rfl⟩

theorem wsDrops_split (input : List Char) :
    ∀ rest ∈ wsDrops input, ∃ pre, input = pre ++ rest ∧ ∀ c ∈ pre, isWs c = true := by
  induction input with
  | nil =>
    intro rest h
    simp [wsDrops] at h
    exact ⟨[], by simp [h]⟩
  | cons c cs ih =>
    intro rest h
    simp only [wsDrops, List.mem_cons] at h
    rcases h with h | h
    · exact ⟨[], by simp [h]⟩
    · by_cases hw : isWs c
      · rw [if_pos hw] at h
        obtain ⟨pre, hpre, hall⟩ := ih rest h
        refine ⟨c :: pre, by simp [hpre], ?_⟩
        intro x hx
        rcases List.mem_cons.1 hx with rfl | hx
        · exact hw
        · exact hall x hx
      · rw [if_neg hw] at h
        simp at h

theorem mem_run_lex (es : List (String × String)) (input : List Char) (r : PathRes) :
    r ∈ run (.lex es) input ↔
      ∃ e ∈ es, listPre e.1.data input = true ∧
        r = (e.2.data, input.drop e.1.data.length, (0 : Int)) := by
  simp only [run, List.mem_filterMap]
  constructor
  · rintro ⟨e, he, hsome⟩
    by_cases hp : listPre e.1.data input
    · rw [if_pos hp] at hsome
      exact ⟨e, he, hp, (Option.some.injEq _ _ ▸ hsome).symm⟩
    · rw [if_neg hp] at hsome
      exact absurd hsome (by simp)
  · rintro ⟨e, he, hp, rfl⟩
    exact ⟨e, he, by rw [if_pos hp]⟩

theorem mem_run_seq (a b : FST) (input : List Char) (r : PathRes) :
    r ∈ run (.seq a b) input ↔
      ∃ r1 ∈ run a input, ∃ r2 ∈ run b r1.2.1,
        r = (r1.1 ++ r2.1, r2.2.1, r1.2.2 + r2.2.2) := by
  simp only [run, List.mem_flatMap, List.mem_map]
  constructor
  · rintro ⟨r1, h1, r2, h2, rfl⟩
    exact ⟨r1, h1, r2, h2, rfl⟩
  · rintro ⟨r1, h1, r2, h2, rfl⟩
    exact ⟨r1, h1, r2, h2, rfl⟩

theorem mem_run_union (a b : FST) (input : List Char) (r : PathRes) :
    r ∈ run (.union a b) input ↔ r ∈ run a input ∨ r ∈ run b input := by
  simp [run]

theorem mem_run_opt (a : FST) (input : List Char) (r : PathRes) :
    r ∈ run (.opt a) input ↔ r = ([], input, (0 : Int)) ∨ r ∈ run a input := by
  simp [run]

theorem mem_run_wt (w : Int) (a : FST) (input : List Char) (r : PathRes) :
    r ∈ run (.wt w a) input ↔
      ∃ r1 ∈ run a input, r = (r1.1, r1.2.1, w + r1.2.2) := by
  simp only [run, List.mem_map]
  constructor
  · rintro ⟨r1, h1, rfl⟩
    exact ⟨r1, h1, rfl⟩
  · rintro ⟨r1, h1, rfl⟩
    exact ⟨r1, h1, rfl⟩

theorem mem_run_delSpace (input : List Char) (r : PathRes) :
    r ∈ run .delSpace input ↔ ∃ rest ∈ wsDrops input, r = ([], rest, (0 : Int)) := by
  simp only [run, List.mem_map]
  constructor
  · rintro ⟨rest, h, rfl⟩
    exact ⟨rest, h, rfl⟩
  · rintro ⟨rest, h, rfl⟩
    exact ⟨rest, h, rfl⟩

theorem mem_run_delExtraSpace (input : List Char) (r : PathRes) :
    r ∈ run .delExtraSpace input ↔
      ∃ c cs, input = c :: cs ∧ isWs c = true ∧
        ∃ rest ∈ wsDrops cs, r = ([' '], rest, (0 : Int)) := by
  cases input with
  | nil => simp [run]
  | cons c cs =>
    by_cases hw : isWs c
    · simp only [run, if_pos hw, List.mem_map]
      constructor
      · rintro ⟨rest, h, rfl⟩
        exact ⟨c, cs, rfl, hw, rest, h, rfl⟩
      · rintro ⟨c', cs', heq, hw', rest, h, rfl⟩
        cases heq
        exact ⟨rest, h, rfl⟩
    · simp only [run, if_neg hw]
      constructor
      · intro h
        exact absurd h (by simp)
      · rintro ⟨c', cs', heq, hw', rest, h, rfl⟩
        cases heq
        exact absurd hw' (by simp [hw])

/-- The set of input characters a transducer can consume, as a boolean check:
all surface characters of all lexicon entries satisfy `P`. -/
def FST.inputAll (P : Char → Bool) : FST → Bool
  | .lex es => es.all (fun e => e.1.data.all P)
  | .seq a b => FST.inputAll P a && FST.inputAll P b
  | .union a b => FST.inputAll P a && FST.inputAll P b
  | .opt a => FST.inputAll P a
  | .delSpace => true
  | .delExtraSpace => true
  | .wt _ a => FST.inputAll P a

/-- Any partial accepting path splits the input into a consumed part and the
rest, and every consumed character satisfies any predicate that holds on all
lexicon surfaces and on whitespace. -/
theorem run_split (P : Char → Bool) (hws : ∀ c, isWs c = true → P c = true)
    (G : FST) (hok : FST.inputAll P G = true) :
    ∀ input r, r ∈ run G input →
      ∃ pre, input = pre ++ r.2.1 ∧ ∀ c ∈ pre, P c = true := by
  induction G with
  | lex es =>
    intro input r hr
    rw [mem_run_lex] at hr
    obtain ⟨e, he, hp, rfl⟩ := hr
    obtain ⟨t, rfl⟩ := (listPre_iff _ _).1 hp
    refine ⟨e.1.data, ?_, ?_⟩
    · simp [List.drop_left]
    · intro c hc
      have h1 := List.all_eq_true.1 hok e he
      exact List.all_eq_true.1 h1 c hc
  | seq a b iha ihb =>
    intro input r hr
    rw [mem_run_seq] at hr
    obtain ⟨r1, h1, r2, h2, rfl⟩ := hr
    simp only [FST.inputAll, Bool.and_eq_true] at hok
    obtain ⟨p1, he1, hall1⟩ := iha hok.1 input r1 h1
    obtain ⟨p2, he2, hall2⟩ := ihb hok.2 r1.2.1 r2 h2
    refine ⟨p1 ++ p2, ?_, ?_⟩
    · simp only [he1, he2, List.append_assoc]
    · intro c hc
      rcases List.mem_append.1 hc with h | h
      · exact hall1 c h
      · exact hall2 c h
  | union a b iha ihb =>
    intro input r hr
    simp only [FST.inputAll, Bool.and_eq_true] at hok
    rcases (mem_run_union a b input r).1 hr with h | h
    · exact iha hok.1 input r h
    · exact ihb hok.2 input r h
  | opt a iha =>
    intro input r hr
    rcases (mem_run_opt a input r).1 hr with rfl | h
    · exact ⟨[], by simp, by simp⟩
    · exact iha hok input r h
  | delSpace =>
    intro input r hr
    obtain ⟨rest, hmem, rfl⟩ := (mem_run_delSpace input r).1 hr
    obtain ⟨pre, hpre, hall⟩ := wsDrops_split input rest hmem
    exact ⟨pre, hpre, fun c hc => hws c (hall c hc)⟩
  | delExtraSpace =>
    intro input r hr
    obtain ⟨c, cs, rfl, hw, rest, hmem, rfl⟩ := (mem_run_delExtraSpace input r).1 hr
    obtain ⟨pre, hpre, hall⟩ := wsDrops_split cs rest hmem
    refine ⟨c :: pre, by simp [hpre], ?_⟩
    intro x hx
    rcases List.mem_cons.1 hx with rfl | hx
    · exact hws x hw
    · exact hws x (hall x hx)
  | wt w a iha =>
    intro input r hr
    obtain ⟨r1, h1, rfl⟩ := (mem_run_wt w a input r).1 hr
    exact iha hok input r1 h1

theorem run_insert (s : String) (input : List Char) :
    run (insert s) input = [(s.data, input, (0 : Int))] := by
  simp [insert, run, listPre]

theorem pad_shape (s v : String) (h : add_leading_zero_to_double_digit s = some v) :
    ∃ d1 d2 : Char, d1.isDigit = true ∧ d2.isDigit = true ∧ v.data = [d1, d2] := by
  unfold add_leading_zero_to_double_digit at h
  rcases hs : s.data with _ | ⟨a, _ | ⟨b, _ | ⟨c, w⟩⟩⟩ <;> rw [hs] at h <;>
    dsimp only at h
  · simp at h
  · by_cases hd : a.isDigit
    · rw [if_pos hd] at h
      obtain rfl : String.mk ['0', a] = v := by injection h
      exact ⟨'0', a, by decide, hd, rfl⟩
    · rw [if_neg hd] at h
      exact absurd h (by simp)
  · by_cases hd : a.isDigit && b.isDigit
    · rw [if_pos hd] at h
      obtain rfl : s = v := by injection h
      have hd2 := Bool.and_eq_true .. ▸ hd
      exact ⟨a, b, hd2.1, hd2.2, hs⟩
    · rw [if_neg hd] at h
      exact absurd h (by simp)
  · exact absurd h (by simp)

theorem mem_composePad (es : List (String × String)) (e : String × String)
    (h : e ∈ composePad es) :
    ∃ d1 d2 : Char, d1.isDigit = true ∧ d2.isDigit = true ∧ e.2.data = [d1, d2] := by
  unfold composePad at h
  rw [List.mem_filterMap] at h
  obtain ⟨a, ha, hsome⟩ := h
  rcases hpad : add_leading_zero_to_double_digit a.2 with _ | v <;> rw [hpad] at hsome
  · exact absurd hsome (by simp)
  · simp only [Option.map_some'] at hsome
    obtain rfl : (a.1, v) = e := by injection hsome
    obtain ⟨d1, d2, h1, h2, hv⟩ := pad_shape a.2 v hpad
    exact ⟨d1, d2, h1, h2, hv⟩

theorem cents_union_shape (ic : InputCase) (input : List Char) (r : PathRes)
    (hr : r ∈ run (.union
      (.seq (.wt (-7) (.lex (composePad (cardinal_no_one ic)))) .delSpace)
      (.seq (.lex ((one_graph ic).map (fun s => (s, "01")))) .delSpace)) input) :
    ∃ d1 d2 : Char, (d1.isDigit = true ∧ d2.isDigit = true) ∧ r.1 = [d1, d2] := by
  rw [mem_run_union] at hr
  rcases hr with h | h
  · rw [mem_run_seq] at h
    obtain ⟨r1, h1, r2, h2, rfl⟩ := h
    rw [mem_run_wt] at h1
    obtain ⟨r3, h3, rfl⟩ := h1
    rw [mem_run_lex] at h3
    obtain ⟨e, he, hp, rfl⟩ := h3
    obtain ⟨d1, d2, hd1, hd2, hv⟩ := mem_composePad _ _ he
    obtain ⟨rest, hrest, rfl⟩ := (mem_run_delSpace _ _).1 h2
    exact ⟨d1, d2, ⟨hd1, hd2⟩, by simp [hv]⟩
  · rw [mem_run_seq] at h
    obtain ⟨r1, h1, r2, h2, rfl⟩ := h
    rw [mem_run_lex] at h1
    obtain ⟨e, he, hp, rfl⟩ := h1
    rw [List.mem_map] at he
    obtain ⟨s, hs, rfl⟩ := he
    obtain ⟨rest, hrest, rfl⟩ := (mem_run_delSpace _ _).1 h2
    refine ⟨'0', '1', ⟨by decide, by decide⟩, ?_⟩
    show ("01").data ++ ([] : List Char) = ['0', '1']
    decide

theorem cents_standalone_shape (ic : InputCase) (input : List Char) (r : PathRes)
    (hr : r ∈ run (cents_standalone ic) input) :
    ∃ d1 d2 : Char, (d1.isDigit = true ∧ d2.isDigit = true) ∧
      r.1 = ("morphosyntactic_features: \",\" fractional_part: \"").data ++
        [d1, d2, '\"'] := by
  simp only [cents_standalone, seqL, insert_space] at hr
  rw [mem_run_seq] at hr
  obtain ⟨r1, h1, r2, h2, rfl⟩ := hr
  rw [run_insert, List.mem_singleton] at h1
  subst h1
  rw [mem_run_seq] at h2
  obtain ⟨r3, h3, r4, h4, rfl⟩ := h2
  rw [run_insert, List.mem_singleton] at h3
  subst h3
  rw [mem_run_seq] at h4
  obtain ⟨r5, h5, r6, h6, rfl⟩ := h4
  rw [run_insert, List.mem_singleton] at h5
  subst h5
  rw [mem_run_seq] at h6
  obtain ⟨r7, h7, r8, h8, rfl⟩ := h6
  rw [run_insert, List.mem_singleton] at h8
  subst h8
  obtain ⟨d1, d2, hd, hout⟩ := cents_union_shape ic _ r7 h7
  refine ⟨d1, d2, hd, ?_⟩
  show ("morphosyntactic_features: \",\"").data ++
      ((" ").data ++ (("fractional_part: \"").data ++ (r7.1 ++ ("\"").data))) =
    ("morphosyntactic_features: \",\" fractional_part: \"").data ++ [d1, d2, '\"']
  rw [hout]
  have h0 : ("morphosyntactic_features: \",\"").data ++ ((" ").data ++
      ("fractional_part: \"").data) =
      ("morphosyntactic_features: \",\" fractional_part: \"").data := by decide
  rw [← h0]
  simp [List.append_assoc]

/-- Characters that an input accepted in lower-cased mode may contain:
everything except uppercase letters other than 'C' (the letter of the
hard-coded "Con" connector in the suffix-cents clause). -/
def lowerSafe (c : Char) : Bool := !(c.isUpper && c != 'C')

theorem lowerSafe_ws : ∀ c, isWs c = true → lowerSafe c = true := by
  intro c h
  simp only [isWs, Bool.or_eq_true, beq_iff_eq] at h
  rcases h with ((rfl | rfl) | rfl) | rfl <;> decide

theorem final_lower_inputAll :
    FST.inputAll lowerSafe (final_graph .lower_cased) = true := by
  decide

/-! ### The claims -/

/-- C1: classifying "cinco céntimos" yields `fractional_part: "05"` and
classifying "un céntimo" yields `fractional_part: "01"` (not "1", not "001");
the quantity-one result carries weight 0 because it is routed through the
literal "01" cross and not through the weighted general padding path, whose
composed lexicon excludes the surfaces "un" and "una". -/
theorem claim_C1 :
    money_classify .lower_cased "cinco céntimos" =
      [("money \x7b integer_part: \"0\" morphosyntactic_features: \",\" fractional_part: \"05\" currency: \"¢\" \x7d",
        (-7 : Int))] ∧
    money_classify .lower_cased "un céntimo" =
      [("money \x7b integer_part: \"0\" morphosyntactic_features: \",\" fractional_part: \"01\" currency: \"¢\" \x7d",
        (0 : Int))] ∧
    (composePad (cardinal_no_one .lower_cased)).all
      (fun e => e.1 != "un" && e.1 != "una") = true := by
  exact ⟨by decide, by decide, by decide⟩

/-- C2: classifying "setenta y cinco dólares con sesenta y tres" yields
integer_part "75", fractional_part "63", the dollar currency and exactly one
`morphosyntactic_features: ","` token; adding the minor-unit word "céntimos"
routes the same annotation through the standalone-cents clause instead, so
the two readings are distinguished by the presence of the minor-unit lexeme,
not by weight (both carry the same -0.7 bias). -/
theorem claim_C2 :
    money_classify .lower_cased "setenta y cinco dólares con sesenta y tres" =
      [("money \x7b integer_part: \"75\" currency: \"$\" morphosyntactic_features: \",\" fractional_part: \"63\" \x7d",
        (-7 : Int))] ∧
    money_classify .lower_cased "setenta y cinco dólares con sesenta y tres céntimos" =
      [("money \x7b integer_part: \"75\" currency: \"$\" morphosyntactic_features: \",\" fractional_part: \"63\" \x7d",
        (-7 : Int))] ∧
    countOccur "morphosyntactic_features"
      "money \x7b integer_part: \"75\" currency: \"$\" morphosyntactic_features: \",\" fractional_part: \"63\" \x7d" = 1 := by
  exact ⟨by decide, by decide, by decide⟩

/-- C3: classifying "diez céntimos" (no integer amount, no major unit) yields
integer_part "0", fractional_part "10", and a currency symbol that occurs in
the minor-unit lexicon and in neither major-unit lexicon. -/
theorem claim_C3 :
    money_classify .lower_cased "diez céntimos" =
      [("money \x7b integer_part: \"0\" morphosyntactic_features: \",\" fractional_part: \"10\" currency: \"¢\" \x7d",
        (-7 : Int))] ∧
    ("céntimos", "¢") ∈ currency_minor_plural ∧
    (currency_major_plural.all (fun e => e.2 != "¢") &&
      currency_major_singular.all (fun e => e.2 != "¢")) = true := by
  exact ⟨by decide, by decide, by decide⟩

/-- C4 counterexample: in lower-cased mode the input "dos dólares Con cinco",
whose third word is capitalized (an uppercase letter after the first
character), still classifies successfully — the suffix-cents clause deletes a
hard-coded "Con" in every case mode — refuting the claim that any capitalized
word outside sentence-initial position yields NoMatch. -/
theorem claim_C4_counterexample :
    money_classify .lower_cased "dos dólares Con cinco" =
      [("money \x7b integer_part: \"2\" currency: \"$\" morphosyntactic_features: \",\" fractional_part: \"05\" \x7d",
        (-7 : Int))] ∧
    (("dos dólares Con cinco").data.drop 1).any Char.isUpper = true := by
  exact ⟨by decide, by decide⟩

/-- C4 (amended): in case-sensitive mode "Doce Dólares" and "doce dólares"
classify to the same annotation (all accepting paths agree); in
lower-cased-only mode every input containing an uppercase letter other than
'C' yields NoMatch — 'C' must be excepted because the suffix-cents clause
deletes a hard-coded "Con" connector in every case mode. -/
theorem claim_C4 :
    (money_classify .cased "Doce Dólares" =
      List.replicate 4 ("money \x7b integer_part: \"12\" currency: \"$\" \x7d", (0 : Int)) ∧
     money_classify .cased "doce dólares" =
      List.replicate 2 ("money \x7b integer_part: \"12\" currency: \"$\" \x7d", (0 : Int))) ∧
    ∀ s : String, s.data.any (fun c => c.isUpper && c != 'C') = true →
      money_classify .lower_cased s = [] := by
  refine ⟨⟨by decide, by decide⟩, ?_⟩
  intro s hs
  rcases hcl : money_classify .lower_cased s with _ | ⟨x, xs⟩
  · rfl
  · exfalso
    have hx : x ∈ money_classify .lower_cased s := by
      rw [hcl]
      exact List.mem_cons_self _ _
    unfold money_classify at hx
    rw [List.mem_filterMap] at hx
    obtain ⟨r, hr, hsome⟩ := hx
    by_cases he : r.2.1.isEmpty
    · have hz : r.2.1 = [] := by
        rwa [List.isEmpty_iff] at he
      obtain ⟨pre, hpre, hall⟩ :=
        run_split lowerSafe lowerSafe_ws _ final_lower_inputAll s.data r hr
      rw [hz, List.append_nil] at hpre
      obtain ⟨c, hc, hcu⟩ := List.any_eq_true.1 hs
      have hsafe := hall c (hpre ▸ hc)
      simp [lowerSafe, hcu] at hsafe
    · rw [if_neg he] at hsome
      exact absurd hsome (by simp)

/-- C4 witness: the amended lower-cased universal applied to the concrete
capitalized input "Doce dólares". -/
theorem claim_C4_witness : money_classify .lower_cased "Doce dólares" = [] :=
  claim_C4.2 "Doce dólares" (by decide)

/-- C5: the integer path is the union of a plural branch (general non-one
cardinal with the plural lexicon) and a singular branch (quantity-one with
the singular lexicon); crossing the pairings yields NoMatch, the
integer-unit separator is mandatory, and each branch may be followed by the
standalone-cents clause or the suffix-cents clause, each at most once. -/
theorem claim_C5 :
    graph_integer .lower_cased =
      FST.union (graph_integer_plural .lower_cased) (graph_integer_singular .lower_cased) ∧
    money_classify .lower_cased "dos dólares" =
      List.replicate 2 ("money \x7b integer_part: \"2\" currency: \"$\" \x7d", (0 : Int)) ∧
    money_classify .lower_cased "un dólar" =
      List.replicate 2 ("money \x7b integer_part: \"1\" currency: \"$\" \x7d", (0 : Int)) ∧
    money_classify .lower_cased "un dólares" = [] ∧
    money_classify .lower_cased "dos dólar" = [] ∧
    money_classify .lower_cased "dosdólares" = [] ∧
    money_classify .lower_cased "dos dólares con cinco céntimos" =
      [("money \x7b integer_part: \"2\" currency: \"$\" morphosyntactic_features: \",\" fractional_part: \"05\" \x7d",
        (-7 : Int))] ∧
    money_classify .lower_cased "dos dólares con cinco" =
      [("money \x7b integer_part: \"2\" currency: \"$\" morphosyntactic_features: \",\" fractional_part: \"05\" \x7d",
        (-7 : Int))] ∧
    money_classify .lower_cased "un dólar con cinco céntimos" =
      [("money \x7b integer_part: \"1\" currency: \"$\" morphosyntactic_features: \",\" fractional_part: \"05\" \x7d",
        (-7 : Int))] ∧
    money_classify .lower_cased "dos dólares con cinco céntimos con cinco céntimos" = [] := by
  exact ⟨rfl, by decide, by decide, by decide, by decide, by decide, by decide,
    by decide, by decide, by decide⟩

/-- C6: every accepting path of the standalone-cents clause emits the comma
decimal-marker field followed by a `fractional_part` of exactly two digit
characters; the exact quantity-one surfaces map to the literal "01" with
weight 0; and a cardinal whose digit string has more than two digits has no
path through the clause that consumes its whole surface form. -/
theorem claim_C6 :
    (∀ (ic : InputCase) (input : List Char) (r : PathRes),
      r ∈ run (cents_standalone ic) input →
      ∃ d1 d2 : Char, (d1.isDigit = true ∧ d2.isDigit = true) ∧
        r.1 = ("morphosyntactic_features: \",\" fractional_part: \"").data ++
          [d1, d2, '\"']) ∧
    (∀ ic : InputCase, ∀ s ∈ one_graph ic,
      (("morphosyntactic_features: \",\" fractional_part: \"01\"").data, [],
        (0 : Int)) ∈ run (cents_standalone ic) s.data) ∧
    (∀ e ∈ cardinal_entries, 2 < e.2.data.length →
      ∀ r ∈ run (cents_standalone .lower_cased) e.1.data, r.2.1 ≠ []) := by
  refine ⟨cents_standalone_shape, ?_, by decide⟩
  intro ic
  cases ic <;> decide

/-- C6 witness: the shape property instantiated on the accepting path for
the input "cinco" in lower-cased mode. -/
theorem claim_C6_witness :
    ∃ d1 d2 : Char, (d1.isDigit = true ∧ d2.isDigit = true) ∧
      ((("morphosyntactic_features: \",\" fractional_part: \"05\"").data,
        ([] : List Char), (-7 : Int)) : PathRes).1 =
        ("morphosyntactic_features: \",\" fractional_part: \"").data ++
          [d1, d2, '\"'] :=
  claim_C6.1 .lower_cased ("cinco").data _ (by decide)

/-- C7: the empty classification result exactly characterizes the absence of
an accepting path that consumes the whole input (classification is a total
function returning a list, so NoMatch is a value, never an exception), and an
input containing no currency-unit lexeme, such as "doce gatos", classifies to
the empty sequence in both case modes. -/
theorem claim_C7 :
    (∀ (ic : InputCase) (s : String), money_classify ic s = [] ↔
      ∀ out w, (out, [], w) ∉ run (final_graph ic) s.data) ∧
    money_classify .lower_cased "doce gatos" = [] ∧
    money_classify .cased "doce gatos" = [] := by
  refine ⟨?_, by decide, by decide⟩
  intro ic s
  constructor
  · intro h out w hmem
    have hx : (String.mk out, w) ∈ money_classify ic s := by
      unfold money_classify
      rw [List.mem_filterMap]
      exact ⟨(out, [], w), hmem, rfl⟩
    rw [h] at hx
    exact absurd hx (List.not_mem_nil _)
  · intro h
    unfold money_classify
    rw [List.filterMap_eq_nil_iff]
    intro r hr
    by_cases he : r.2.1.isEmpty
    · exfalso
      have hz : r.2.1 = [] := by
        rwa [List.isEmpty_iff] at he
      have hr2 : ((r.1, r.2.1, r.2.2) : PathRes) ∈ run (final_graph ic) s.data := hr
      rw [hz] at hr2
      exact h r.1 r.2.2 hr2
    · rw [if_neg he]

/-- C7 witness: the characterization applied to the concrete unit-free input
"cinco gatos" in lower-cased mode. -/
theorem claim_C7_witness : money_classify .lower_cased "cinco gatos" = [] := by
  refine (claim_C7.1 .lower_cased "cinco gatos").2 ?_
  intro out w hmem
  have hall : ∀ r ∈ run (final_graph .lower_cased) ("cinco gatos").data,
      r.2.1 ≠ [] := by decide
  exact absurd rfl (hall _ hmem)

/-- C8: the Japanese verbalization entry point is the union of the per-class
verbalizers it instantiates, and the union preserves every per-class path
together with its weight. -/
theorem claim_C8 :
    (∀ input, run ja_verbalize_fst input =
      run jp_cardinal_verbalizer input ++ run jp_whitelist_verbalizer input) ∧
    (∀ input r, r ∈ run jp_cardinal_verbalizer input →
      r ∈ run ja_verbalize_fst input) ∧
    (∀ input r, r ∈ run jp_whitelist_verbalizer input →
      r ∈ run ja_verbalize_fst input) := by
  refine ⟨fun input => rfl, ?_, ?_⟩
  · intro input r h
    show r ∈ run (.union jp_cardinal_verbalizer jp_whitelist_verbalizer) input
    exact (mem_run_union _ _ _ _).2 (Or.inl h)
  · intro input r h
    show r ∈ run (.union jp_cardinal_verbalizer jp_whitelist_verbalizer) input
    exact (mem_run_union _ _ _ _).2 (Or.inr h)

/-- C8 witness: a cardinal verbalization path survives in the composed
entry-point transducer with its weight. -/
theorem claim_C8_witness :
    (("123").data, ([] : List Char), (0 : Int)) ∈
      run ja_verbalize_fst ("cardinal \x7b integer: \"123\" \x7d").data :=
  claim_C8.2.1 _ _ (by decide)

/-- C9: the quantity-one exclusion removes only the exact surface strings
"un"/"una": numerals that merely contain "un", such as "veintiuna" and
"un millón", stay in the restricted cardinal lexicon, classify through the
plural branch (and fail with the singular unit). -/
theorem claim_C9 :
    (("veintiuna", "21") ∈ cardinal_no_one .lower_cased ∧
     ("un millón", "1000000") ∈ cardinal_no_one .lower_cased ∧
     (cardinal_no_one .lower_cased).all
       (fun e => e.1 != "un" && e.1 != "una") = true) ∧
    money_classify .lower_cased "veintiuna dólares" =
      List.replicate 2 ("money \x7b integer_part: \"21\" currency: \"$\" \x7d", (0 : Int)) ∧
    money_classify .lower_cased "un millón dólares" =
      List.replicate 2 ("money \x7b integer_part: \"1000000\" currency: \"$\" \x7d", (0 : Int)) ∧
    money_classify .lower_cased "veintiuna dólar" = [] ∧
    money_classify .lower_cased "un millón dólar" = [] := by
  exact ⟨⟨by decide, by decide, by decide⟩, by decide, by decide, by decide,
    by decide⟩

/-- C10: the optional "con"/"y" connector before standalone cents is deleted
without a trace — the annotations for "doce dólares y cinco céntimos",
"doce dólares con cinco céntimos" and "doce dólares cinco céntimos" are
identical — the cased connector "Y" behaves the same in cased mode, the
minor-unit word is deleted rather than emitted, and the single currency field
comes from the major lexicon ("$", never "¢"). -/
theorem claim_C10 :
    money_classify .lower_cased "doce dólares y cinco céntimos" =
      [("money \x7b integer_part: \"12\" currency: \"$\" morphosyntactic_features: \",\" fractional_part: \"05\" \x7d",
        (-7 : Int))] ∧
    money_classify .lower_cased "doce dólares con cinco céntimos" =
      [("money \x7b integer_part: \"12\" currency: \"$\" morphosyntactic_features: \",\" fractional_part: \"05\" \x7d",
        (-7 : Int))] ∧
    money_classify .lower_cased "doce dólares cinco céntimos" =
      [("money \x7b integer_part: \"12\" currency: \"$\" morphosyntactic_features: \",\" fractional_part: \"05\" \x7d",
        (-7 : Int))] ∧
    money_classify .cased "doce dólares Y cinco céntimos" =
      [("money \x7b integer_part: \"12\" currency: \"$\" morphosyntactic_features: \",\" fractional_part: \"05\" \x7d",
        (-7 : Int))] ∧
    countOccur "currency"
      "money \x7b integer_part: \"12\" currency: \"$\" morphosyntactic_features: \",\" fractional_part: \"05\" \x7d" = 1 ∧
    countOccur "¢"
      "money \x7b integer_part: \"12\" currency: \"$\" morphosyntactic_features: \",\" fractional_part: \"05\" \x7d" = 0 := by
  exact ⟨by decide, by decide, by decide, by decide, by decide, by decide⟩

end Nemo
